import Mathlib

/-!
Verification of the bindxdb plugin orchestration runtime
(`pkg/plugin`: `dependency.go`, `registry.go`, `lifecycle.go`,
`hooks/hooks.go`, `sandbox/sandbox.go`) against its natural-language
specification.

The Go code is shallowly embedded: Go maps become association lists
(iteration follows list order, a deterministic stand-in for Go's
unspecified map order; every theorem below is either order-independent
or evaluated on concrete inputs), pointer mutation becomes explicit
state passing, and the recursive DFS helpers take a fuel argument that
is always instantiated large enough (`number of nodes + 1`) to cover
the real recursion depth.  Logging, timestamps, locks and the
`PluginInfo.Hooks`/`byPlugin`/`stats` bookkeeping maps, which no claim
touches, are omitted.
-/

namespace BindXDB

/-- Plugin lifecycle states, from `pkg/plugin` (`PluginState` in the
    plugin types file). -/
inductive PluginState where
  | unknown
  | loaded
  | initialized
  | started
  | stopped
  | failed
deriving DecidableEq, Repr

/-- One entry of `PluginMetadata.Dependencies` (`Dependency` struct). -/
structure Dependency where
  pluginID : String
  version : String
  optional : Bool
deriving DecidableEq, Repr

/-- The fields of `PluginMetadata` used by the dependency and lifecycle
    code (`ID`, `Dependencies`, `Provides`, `Requires`); the purely
    descriptive fields (name, author, license, ...) are dropped. -/
structure PluginMetadata where
  id : String
  dependencies : List Dependency
  provides : List String
  requires : List String
deriving DecidableEq, Repr

/-- Lookup in a Go map modelled as an association list. -/
def getEntry? (l : List (String × β)) (k : String) : Option β :=
  (l.find? (fun p => p.1 == k)).map (fun p => p.2)

/-- Assignment in a Go map modelled as an association list: replaces
    the binding in place, appending a fresh one at the end. -/
def setEntry : List (String × β) → String → β → List (String × β)
  | [], k, v => [(k, v)]
  | p :: rest, k, v => if p.1 == k then (k, v) :: rest else p :: setEntry rest k v

/-- A node of the dependency graph (`GraphNode` in `dependency.go`). -/
structure GraphNode where
  pluginID : String
  metadata : PluginMetadata
  dependents : List String
  dependsOn : List String
  state : PluginState
  visited : Bool
  tempVisit : Bool
deriving DecidableEq, Repr

/-- The dependency graph (`DependencyGraph` in `dependency.go`); the Go
    `map[string]*GraphNode` becomes an association list. -/
structure DependencyGraph where
  nodes : List (String × GraphNode)
deriving DecidableEq, Repr

namespace DependencyGraph

/-- Map lookup `g.nodes[id]`. -/
def findNode (g : DependencyGraph) (id : String) : Option GraphNode :=
  getEntry? g.nodes id

/-- Map assignment `g.nodes[id] = n`. -/
def setNode (g : DependencyGraph) (id : String) (n : GraphNode) : DependencyGraph :=
  ⟨setEntry g.nodes id n⟩

/-- Key list of the node map. -/
def keys (g : DependencyGraph) : List String :=
  g.nodes.map (fun p => p.1)

/-- Map membership test. -/
def hasNode (g : DependencyGraph) (id : String) : Bool :=
  g.nodes.any (fun p => p.1 == id)

/-- NewDependencyGraph. -/
def empty : DependencyGraph := ⟨[]⟩

/-- AddPlugin (`dependency.go:29-49`): creates a node whose `DependsOn`
    is seeded with the non-optional dependency ids followed by all
    required capability names, then stores it under `metadata.ID`
    (overwriting any existing node).  Note that the seeding does NOT
    touch the `Dependents` list of the referenced nodes. -/
def AddPlugin (g : DependencyGraph) (metadata : PluginMetadata) : DependencyGraph :=
  let node : GraphNode :=
    { pluginID := metadata.id
      metadata := metadata
      dependents := []
      dependsOn :=
        (metadata.dependencies.filter (fun d => !d.optional)).map (fun d => d.pluginID)
          ++ metadata.requires
      state := PluginState.unknown
      visited := false
      tempVisit := false }
  g.setNode metadata.id node

/-- AddDependency (`dependency.go:51-80`).  Faithful to the source: if
    `to` is already in `from`'s `DependsOn` it returns early; after
    appending to `DependsOn` it re-reads the target node (same pointer
    when `from = to`), and returns early before appending to
    `Dependents` when `from` is already there. -/
def AddDependency (g : DependencyGraph) (src dst : String) :
    DependencyGraph × Option String :=
  match g.findNode src with
  | none => (g, some ("source plugin not found: " ++ src))
  | some fromNode =>
    match g.findNode dst with
    | none => (g, some ("target plugin not found: " ++ dst))
    | some _ =>
      if dst ∈ fromNode.dependsOn then
        (g, none)
      else
        let g1 := g.setNode src { fromNode with dependsOn := fromNode.dependsOn ++ [dst] }
        match g1.findNode dst with
        | none => (g1, none)
        | some toNode =>
          if src ∈ toNode.dependents then
            (g1, none)
          else
            (g1.setNode dst { toNode with dependents := toNode.dependents ++ [src] }, none)

/-- The marker reset loop at the top of DetectCycle. -/
def resetMarks (g : DependencyGraph) : DependencyGraph :=
  ⟨g.nodes.map (fun p => (p.1, { p.2 with visited := false, tempVisit := false }))⟩

/-- Fuel bound covering any DFS traversal of `g`: one unit per work
    list item, of which there are at most `|nodes|` at top level plus,
    for each node processed at most once, its `DependsOn` entries. -/
def workFuel (g : DependencyGraph) : Nat :=
  g.nodes.length + (g.nodes.map (fun p => p.2.dependsOn.length)).sum + 1

/-- One step of `detectCyclesDFS` (`dependency.go:104-138`), processing
    a work list of node ids (the callee's own id at top level, the
    `DependsOn` list inside the loop).  `path` is the slice of ids on
    the current DFS stack.  A non-empty returned list is the early
    `return cycle` propagation of the Go code.  Every recursive call
    consumes one fuel unit (structural recursion); `workFuel` always
    suffices. -/
def detectDFS : Nat → DependencyGraph → List String → List String →
    DependencyGraph × List String
  | _, g, [], _ => (g, [])
  | 0, g, _ :: _, _ => (g, [])
  | fuel + 1, g, id :: rest, path =>
    match g.findNode id with
    | none => detectDFS fuel g rest path
    | some node =>
      if node.tempVisit then
        -- node already on stack: return path[cycleStart:] ++ [id]
        let cyc :=
          match path.findIdx? (fun n => n == id) with
          | some i => path.drop i ++ [id]
          | none => path
        if cyc.length > 0 then (g, cyc) else detectDFS fuel g rest path
      else if node.visited then
        detectDFS fuel g rest path
      else
        let g1 := g.setNode id { node with tempVisit := true }
        let res := detectDFS fuel g1 node.dependsOn (path ++ [id])
        if res.2.length > 0 then
          -- early `return cycle`: TempVisit stays set, as in the source
          (res.1, res.2)
        else
          let g2 := res.1
          let g3 :=
            match g2.findNode id with
            | some n2 => g2.setNode id { n2 with tempVisit := false, visited := true }
            | none => g2
          detectDFS fuel g3 rest path

/-- The outer loop of DetectCycle (`dependency.go:90-97`).  The inner
    `cycle := g.detectCyclesDFS(node, []string{})` SHADOWS the outer
    `cycle` variable, so the loop only threads the visitation marks;
    the doubled `append(cycle, cycle...)` value is discarded. -/
def detectCycleOuter : DependencyGraph → List String → DependencyGraph
  | g, [] => g
  | g, id :: rest =>
    match g.findNode id with
    | none => detectCycleOuter g rest
    | some node =>
      if node.visited then detectCycleOuter g rest
      else
        let res := detectDFS (workFuel g) g [id] []
        let innerCycle := res.2
        let _ := if innerCycle.length > 0 then innerCycle ++ innerCycle else innerCycle
        detectCycleOuter res.1 rest

/-- DetectCycle (`dependency.go:82-102`).  The outer `cycle` variable is
    declared with `var cycle []string` and never assigned (the loop
    assigns a shadowed local), so the final length test is on the empty
    slice. -/
def DetectCycle (g : DependencyGraph) : List String × Option String :=
  let g0 := resetMarks g
  let _ := detectCycleOuter g0 g0.keys
  let cycle : List String := []
  if cycle.length > 0 then
    (cycle, some "circular dependencies detected")
  else
    ([], none)

/-- The `Visited` reset loop in TopologicalSort. -/
def resetVisited (g : DependencyGraph) : DependencyGraph :=
  ⟨g.nodes.map (fun p => (p.1, { p.2 with visited := false }))⟩

/-- Lexicographic code-point comparison of char lists, modelling Go's
    byte-wise `<` on strings. -/
def charsLt : List Char → List Char → Bool
  | [], [] => false
  | [], _ :: _ => true
  | _ :: _, [] => false
  | a :: as, b :: bs =>
    if Nat.blt a.toNat b.toNat then true
    else if Nat.blt b.toNat a.toNat then false
    else charsLt as bs

/-- Go's `<` on plugin-id strings. -/
def idLt (a b : String) : Bool := charsLt a.toList b.toList

/-- Stable insertion used to model `sort.Slice(nodes, PluginID <)`:
    places a node after every node whose id is not greater. -/
def insertById (p : String × GraphNode) :
    List (String × GraphNode) → List (String × GraphNode)
  | [] => [p]
  | q :: qs => if idLt p.1 q.1 then p :: q :: qs else q :: insertById p qs

/-- Sorting of the node slice by ascending `PluginID`
    (`dependency.go:159-161`). -/
def sortNodesById (l : List (String × GraphNode)) : List (String × GraphNode) :=
  l.foldl (fun acc p => insertById p acc) []

/-- The recursion of `topologicalSortDFS` (`dependency.go:177-187`),
    processing a work list of ids: the `!depNode.Visited` guard of the
    source's caller becomes the `visited` test on entry.  Appends each
    node to the accumulator after all of its dependencies (postorder).
    Every recursive call consumes one fuel unit; `workFuel` always
    suffices. -/
def topoDFS : Nat → DependencyGraph → List String → List String →
    DependencyGraph × List String
  | _, g, [], acc => (g, acc)
  | 0, g, _ :: _, acc => (g, acc)
  | fuel + 1, g, id :: rest, acc =>
    match g.findNode id with
    | none => topoDFS fuel g rest acc
    | some node =>
      if node.visited then topoDFS fuel g rest acc
      else
        let g1 := g.setNode id { node with visited := true }
        let res := topoDFS fuel g1 node.dependsOn acc
        topoDFS fuel res.1 rest (res.2 ++ [id])

/-- TopologicalSort (`dependency.go:140-175`): re-validates acyclicity
    through DetectCycle, resets `Visited`, runs the postorder DFS over
    the nodes in ascending id order, and finally REVERSES the postorder
    result before returning it. -/
def TopologicalSort (g : DependencyGraph) : Option (List String) × Option String :=
  match g.DetectCycle with
  | (_, some e) => (none, some e)
  | (cycles, none) =>
    if cycles.length > 0 then (none, some "connot sort with cycles")
    else
      let g0 := resetVisited g
      let ordered := sortNodesById g0.nodes
      let res := topoDFS (workFuel g0) g0 (ordered.map (fun p => p.1)) []
      (some res.2.reverse, none)

end DependencyGraph

/-! The hook pipeline of `pkg/plugin/hooks/hooks.go`.  The untyped
`map[string]interface{}` payload is modelled as an association list of
string keys to natural numbers; a handler receives the payload and
reports, through the fields it may set on the `HookContext`, an error,
the `StopChain` flag, and the `Modified` flag with the replacement
payload. -/

/-- Model of the mutable `Data map[string]interface{}` payload bag. -/
def HookData : Type := List (String × Nat)

/-- The observable outcome of one handler invocation: the returned
    error plus the `HookContext` fields the handler may have set. -/
structure HookOutcome where
  err : Option String
  stopChain : Bool
  modified : Bool
  data : HookData

/-- A hook handler (`HookHandler` in `hooks.go`), as a function of the
    payload it is shown. -/
def HHandler : Type := HookData → HookOutcome

/-- A registered hook (`HookRegistration` in `hooks.go`).  The Go `ID`
    string built from a nanosecond timestamp is modelled by a counter:
    later registrations always get strictly larger ids. -/
structure HookReg where
  id : Nat
  pluginID : String
  hookType : String
  handler : HHandler
  priority : Int
  enabled : Bool

/-- Stable insertion of a registration into a descending-priority list:
    it lands after every element whose priority is greater or equal
    (the comparator `Priority >` of `RegisterHook`'s `sort.Slice`). -/
def insertDesc (r : HookReg) : List HookReg → List HookReg
  | [] => [r]
  | x :: xs => if r.priority > x.priority then r :: x :: xs else x :: insertDesc r xs

/-- Model of `sort.Slice(regs, Priority >)` in `RegisterHook`
    (`hooks.go:140-142`) as a left-to-right insertion sort, which is
    what Go's sort runs on the short slices involved. -/
def sortDesc (l : List HookReg) : List HookReg :=
  l.foldl (fun acc x => insertDesc x acc) []

/-- The hook registry of `hooks.go` (`HookRegistry`); the `byPlugin`
    index and the `stats` map are bookkeeping no claim touches. -/
structure HookRegistry where
  hooks : List (String × List HookReg)
  nextId : Nat

/-- Association-list lookup with Go's zero-value default. -/
def lookupListD (l : List (String × List α)) (k : String) : List α :=
  (getEntry? l k).getD []

/-- Association-list store. -/
def storeList (l : List (String × List α)) (k : String) (v : List α) :
    List (String × List α) :=
  setEntry l k v

namespace HookRegistry

/-- NewHookRegistry. -/
def empty : HookRegistry := ⟨[], 0⟩

/-- RegisterHook (`hooks.go:119-150`): creates an enabled registration
    with a fresh id, appends it to the event type's list and re-sorts
    that list by descending priority. -/
def registerHook (r : HookRegistry) (pluginID hookType : String)
    (handler : HHandler) (priority : Int) : HookRegistry :=
  let reg : HookReg :=
    { id := r.nextId, pluginID := pluginID, hookType := hookType
      handler := handler, priority := priority, enabled := true }
  let regs := sortDesc (lookupListD r.hooks hookType ++ [reg])
  { hooks := storeList r.hooks hookType regs, nextId := r.nextId + 1 }

/-- A registration request, for building a registry from a batch of
    `RegisterHook` calls. -/
structure Req where
  pluginID : String
  hookType : String
  handler : HHandler
  priority : Int

/-- Registry obtained by a sequence of `RegisterHook` calls. -/
def build (reqs : List Req) : HookRegistry :=
  reqs.foldl (fun r q => r.registerHook q.pluginID q.hookType q.handler q.priority) empty

/-- Result of `ExecuteHooks`: the returned error, the registrations
    invoked in order, and the (wrapped) error each invocation produced. -/
structure ExecOut where
  result : Option String
  trace : List HookReg
  errs : List (Option String)

/-- The handler loop of `ExecuteHooks` (`hooks.go:247-282`): skips
    disabled registrations, wraps and remembers the last error, stops
    the chain when `StopChain` is set, and otherwise threads the
    possibly modified payload on to the next handler. -/
def execLoop : List HookReg → HookData → Option String → ExecOut
  | [], _, last => { result := last, trace := [], errs := [] }
  | r :: rest, data, last =>
    if r.enabled then
      let out := r.handler data
      let wrapped := out.err.map (fun e => "hook " ++ toString r.id ++ " failed: " ++ e)
      let last' :=
        match out.err with
        | some e => some ("hook " ++ toString r.id ++ " failed: " ++ e)
        | none => last
      if out.stopChain then
        { result := last', trace := [r], errs := [wrapped] }
      else
        let data' := if out.modified then out.data else data
        let tail := execLoop rest data' last'
        { result := tail.result, trace := r :: tail.trace, errs := wrapped :: tail.errs }
    else
      execLoop rest data last

/-- ExecuteHooks (`hooks.go:229-285`): snapshots the event type's
    registration list and runs the handler loop on it with no error
    recorded yet. -/
def executeHooks (r : HookRegistry) (hookType : String) (data : HookData) : ExecOut :=
  execLoop (lookupListD r.hooks hookType) data none

end HookRegistry

/-! The plugin registry and lifecycle manager of `pkg/plugin`
(`registry.go`, `lifecycle.go`).  A plugin instance is modelled by the
outcomes of its `Init`/`Start`/`Stop`/`Ready` calls and by the hook
table its `GetHooks` returns; handlers in that table use the
`registry.go` handler shape (payload in, error out). -/

/-- A handler in the `pkg/plugin` package's own hook lists
    (`HookHandler` in the plugin types file). -/
def RHandler : Type := HookData → Option String

/-- Model of a loaded plugin instance: the results its lifecycle
    methods produce when called. -/
structure PluginInstance where
  initOk : Bool
  startOk : Bool
  stopOk : Bool
  ready : Bool
  hooks : List (String × List RHandler)

/-- PluginInfo (`registry.go:21-30`): metadata, instance, state and the
    dependents list filled in by `ResolveDependencies`.  Config,
    timestamps and the per-info `Hooks` map are bookkeeping no claim
    touches. -/
structure PluginInfo where
  metadata : PluginMetadata
  inst : PluginInstance
  state : PluginState
  dependents : List String

/-- A `registry.go` hook registration (`HookRegistration`,
    `registry.go:44-48`); no id and no enabled flag exist there. -/
structure RHookReg where
  pluginID : String
  handler : RHandler
  priority : Int

/-- Stable ascending insertion: the element lands after every element
    whose priority is less or equal (comparator `Priority <` of
    `AddHook`'s `sort.Slice`). -/
def insertAsc (r : RHookReg) : List RHookReg → List RHookReg
  | [] => [r]
  | x :: xs => if r.priority < x.priority then r :: x :: xs else x :: insertAsc r xs

/-- Model of `sort.Slice(hooks, Priority <)` in `AddHook`
    (`registry.go:150-152`) as a left-to-right insertion sort. -/
def sortAsc (l : List RHookReg) : List RHookReg :=
  l.foldl (fun acc x => insertAsc x acc) []

/-- PluginRegistry (`registry.go:32-42`): the plugin table, the resolved
    start order, the per-event hook lists and the capability table.
    The configuration provider is absent (`nil`), so `StartPlugin`
    always proceeds with an empty config. -/
structure PluginRegistry where
  plugins : List (String × PluginInfo)
  pluginOrder : List String
  hooks : List (String × List RHookReg)
  capabilities : List (String × List String)

namespace PluginRegistry

/-- Lookup in the plugin table. -/
def findPlugin (r : PluginRegistry) (id : String) : Option PluginInfo :=
  getEntry? r.plugins id

/-- Store into the plugin table (pointer mutation of a `*PluginInfo`). -/
def setPlugin (r : PluginRegistry) (id : String) (info : PluginInfo) : PluginRegistry :=
  { r with plugins := setEntry r.plugins id info }

/-- AddHook (`registry.go:125-157`): fails when the plugin is unknown,
    otherwise appends a registration for the event type and re-sorts
    that list by ASCENDING priority (the comparator is `Priority <`). -/
def addHook (r : PluginRegistry) (pluginID hookType : String)
    (handler : RHandler) (priority : Int) : PluginRegistry × Option String :=
  match r.findPlugin pluginID with
  | none => (r, some ("plugin not found: " ++ pluginID))
  | some _ =>
    let regs := sortAsc (lookupListD r.hooks hookType ++
      [{ pluginID := pluginID, handler := handler, priority := priority }])
    ({ r with hooks := storeList r.hooks hookType regs }, none)

/-- The handler loop of the registry's ExecuteHooks
    (`registry.go:169-183`): each handler is invoked on the same
    payload and the FIRST error is returned immediately, abandoning the
    rest of the chain.  The trace records `(pluginID, priority)` of
    each invoked registration. -/
def execLoopR : List RHookReg → HookData → Option String × List (String × Int)
  | [], _ => (none, [])
  | r :: rest, data =>
    match r.handler data with
    | some e =>
      (some ("hook from plugin " ++ r.pluginID ++ " failed " ++ e),
        [(r.pluginID, r.priority)])
    | none =>
      let res := execLoopR rest data
      (res.1, (r.pluginID, r.priority) :: res.2)

/-- ExecuteHooks (`registry.go:159-185`): snapshots the event type's
    list and runs the loop. -/
def executeHooks (r : PluginRegistry) (hookType : String) (data : HookData) :
    Option String × List (String × Int) :=
  execLoopR (lookupListD r.hooks hookType) data

end PluginRegistry

/-- Observable lifecycle actions: invocations of a plugin's `Init`,
    `Start` and `Stop` methods and of `registry.AddHook`, in program
    order. -/
inductive LifeEvent where
  | initCall (id : String)
  | startCall (id : String)
  | stopCall (id : String)
  | addHookCall (pluginID hookType : String) (priority : Int)
deriving DecidableEq, Repr

/-- Structured form of the errors `StopPlugin` can return. -/
inductive StopErr where
  | notFound
  | blocked (running : List String)
  | stopFailed
deriving DecidableEq, Repr

namespace PluginRegistry

/-- ValidateDependencies (`dependency.go:248-270`): collects, over all
    registered plugins, every non-optional dependency whose target id
    is not registered; the Go code renders each pair as the string
    `"X -> Y"`, modelled here as the pair `(X, Y)`. -/
def validateDependencies (r : PluginRegistry) : List (String × String) :=
  r.plugins.flatMap (fun p =>
    p.2.metadata.dependencies.filterMap (fun dep =>
      if !dep.optional && (r.findPlugin dep.pluginID).isNone then
        some (p.1, dep.pluginID)
      else none))

/-- ResolveDependencies (`dependency.go:189-246`): rebuilds the graph
    from the registered metadata (`AddPlugin` plus `AddDependency` for
    each non-optional dependency and for the first provider of each
    required capability), runs `DetectCycle` and `TopologicalSort`,
    copies each node's `Dependents` back into its `PluginInfo`, and
    stores the order in `pluginOrder`.  Returns `none` on failure. -/
def resolveDependencies (r : PluginRegistry) : PluginRegistry × Option (List String) :=
  let g := r.plugins.foldl (fun g p =>
    let g1 := g.AddPlugin p.2.metadata
    match g1.findNode p.2.metadata.id with
    | some n => g1.setNode p.2.metadata.id { n with state := p.2.state }
    | none => g1) DependencyGraph.empty
  let g := r.plugins.foldl (fun g p =>
    let g1 := p.2.metadata.dependencies.foldl (fun g dep =>
      if !dep.optional then (g.AddDependency p.1 dep.pluginID).1 else g) g
    p.2.metadata.requires.foldl (fun g cap =>
      match lookupListD r.capabilities cap with
      | [] => g
      | prov :: _ => (g.AddDependency p.1 prov).1) g1) g
  match g.DetectCycle with
  | (_, some _) => (r, none)
  | (cycles, none) =>
    if cycles.length > 0 then (r, none)
    else
      match g.TopologicalSort with
      | (none, _) => (r, none)
      | (some order, _) =>
        let r1 := g.nodes.foldl (fun acc p =>
          match acc.findPlugin p.1 with
          | some info => acc.setPlugin p.1 { info with dependents := p.2.dependents }
          | none => acc) r
        ({ r1 with pluginOrder := order }, some order)

/-- StartPlugin (`lifecycle.go:29-96`): no-op when already `Started`,
    error when `Failed`; `Init` only from `Loaded` (failure leaves the
    plugin `Failed`); then `Start` (failure leaves it `Failed`); on
    success the state becomes `Started`, every handler of every event
    type in the instance's `GetHooks()` table is registered through
    `registry.AddHook` with the literal priority `100 + 1`, and every
    provided capability is recorded.  The configuration provider is
    `nil`, so the config fetch is the empty map.  State changes are
    written through to the registry at each assignment, mirroring the
    `*PluginInfo` pointer. -/
def startPlugin (r : PluginRegistry) (id : String) :
    PluginRegistry × Option String × List LifeEvent :=
  match r.findPlugin id with
  | none => (r, some ("plugin not found: " ++ id), [])
  | some info =>
    match info.state with
    | PluginState.started => (r, none, [])
    | PluginState.failed => (r, some ("plugin " ++ id ++ " is in failed state"), [])
    | _ =>
      let initStep : PluginRegistry × PluginInfo × Option String × List LifeEvent :=
        if info.state = PluginState.loaded then
          if info.inst.initOk then
            let info1 := { info with state := PluginState.initialized }
            (r.setPlugin id info1, info1, none, [LifeEvent.initCall id])
          else
            let info1 := { info with state := PluginState.failed }
            (r.setPlugin id info1, info1,
              some ("failed to initialize plugin " ++ id), [LifeEvent.initCall id])
        else (r, info, none, [])
      match initStep with
      | (r1, _, some e, evs) => (r1, some e, evs)
      | (r1, info1, none, evs) =>
        if info1.inst.startOk then
          let info2 := { info1 with state := PluginState.started }
          let r2 := r1.setPlugin id info2
          let hookEvents := info2.inst.hooks.flatMap (fun p =>
            p.2.map (fun _ => LifeEvent.addHookCall id p.1 (100 + 1)))
          let r3 := info2.inst.hooks.foldl (fun acc p =>
            p.2.foldl (fun acc2 h => (acc2.addHook id p.1 h (100 + 1)).1) acc) r2
          let r4 := info2.metadata.provides.foldl (fun acc c =>
            { acc with capabilities :=
                storeList acc.capabilities c (lookupListD acc.capabilities c ++ [id]) }) r3
          (r4, none, evs ++ [LifeEvent.startCall id] ++ hookEvents)
        else
          let info2 := { info1 with state := PluginState.failed }
          (r1.setPlugin id info2,
            some ("failed to start plugin " ++ id), evs ++ [LifeEvent.startCall id])

/-- The per-plugin loop of StartPlugins (`lifecycle.go:124-128`): starts
    each id of the resolved order, aborting on the first failure. -/
def startPluginsLoop : PluginRegistry → List String → List LifeEvent →
    PluginRegistry × Option String × List LifeEvent
  | r, [], evs => (r, none, evs)
  | r, id :: rest, evs =>
    match startPlugin r id with
    | (r1, some e, evs1) =>
      (r1, some ("failed to start plugin " ++ id ++ ": " ++ e), evs ++ evs1)
    | (r1, none, evs1) => startPluginsLoop r1 rest (evs ++ evs1)

/-- StartPlugins (`lifecycle.go:98-139`), on the path with
    `AutoDiscover = false` and `HealthCheck = false`: validates
    dependencies (fatal to the whole call), resolves the startup
    order, then starts each plugin in that order. -/
def startPlugins (r : PluginRegistry) :
    PluginRegistry × Option String × List LifeEvent :=
  if (validateDependencies r).length > 0 then
    (r, some "dependency validation failed", [])
  else
    match resolveDependencies r with
    | (r1, none) => (r1, some "failed to resolve startup order", [])
    | (r1, some order) => startPluginsLoop r1 order []

/-- Whether the plugin registered under `id` is currently `Started`
    (the filter of `StopPlugin`'s running-dependents scan). -/
def startedIn (r : PluginRegistry) (id : String) : Bool :=
  match r.findPlugin id with
  | some info => info.state == PluginState.started
  | none => false

/-- StopPlugin (`lifecycle.go:141-176`): no-op unless `Started`;
    refuses, without calling `Stop`, when any entry of the stored
    `Dependents` list is itself `Started` (the error carries exactly
    those ids); otherwise calls `Stop`, moving the state to `Stopped`
    on success and to `Failed` on failure. -/
def stopPlugin (r : PluginRegistry) (id : String) :
    PluginRegistry × Option StopErr × List LifeEvent :=
  match r.findPlugin id with
  | none => (r, some StopErr.notFound, [])
  | some info =>
    if info.state ≠ PluginState.started then (r, none, [])
    else
      let running := info.dependents.filter (fun d => startedIn r d)
      if running.length > 0 then (r, some (StopErr.blocked running), [])
      else if info.inst.stopOk then
        (r.setPlugin id { info with state := PluginState.stopped }, none,
          [LifeEvent.stopCall id])
      else
        (r.setPlugin id { info with state := PluginState.failed },
          some StopErr.stopFailed, [LifeEvent.stopCall id])

end PluginRegistry

namespace DependencyGraph

/-- The `DependsOn` list of a node, empty when the node is absent. -/
def dependsOnOf (g : DependencyGraph) (id : String) : List String :=
  ((g.findNode id).map GraphNode.dependsOn).getD []

/-- The `Dependents` list of a node, empty when the node is absent. -/
def dependentsOf (g : DependencyGraph) (id : String) : List String :=
  ((g.findNode id).map GraphNode.dependents).getD []

/-- The mutual-inverse edge invariant claimed by the specification:
    `b` is in `a`'s `DependsOn` exactly when `a` is in `b`'s
    `Dependents`. -/
def mutualInverse (g : DependencyGraph) : Prop :=
  ∀ a ∈ g.keys, ∀ b ∈ g.keys,
    (b ∈ g.dependsOnOf a ↔ a ∈ g.dependentsOf b)

instance (g : DependencyGraph) : Decidable (mutualInverse g) := by
  unfold mutualInverse; infer_instance

/-- Every edge endpoint mentioned in a node's lists is itself a node. -/
def edgesClosed (g : DependencyGraph) : Prop :=
  ∀ a ∈ g.keys,
    (∀ x ∈ g.dependsOnOf a, x ∈ g.keys) ∧ (∀ x ∈ g.dependentsOf a, x ∈ g.keys)

instance (g : DependencyGraph) : Decidable (edgesClosed g) := by
  unfold edgesClosed; infer_instance

/-- Metadata that makes `AddPlugin` seed no edges: every declared
    dependency is optional and no capability is required. -/
def plainMeta (m : PluginMetadata) : Prop :=
  (∀ d ∈ m.dependencies, d.optional = true) ∧ m.requires = []

instance (m : PluginMetadata) : Decidable (plainMeta m) := by
  unfold plainMeta; infer_instance

end DependencyGraph

/-! The sandbox of `pkg/plugin/sandbox/sandbox.go`.  The wrapped
function runs in a goroutine whose body is guarded by a deferred
`recover` (`sandbox.go:143-147`); an UN-recovered panic in any
goroutine would terminate the whole host process, which the `panicked`
constructor models.  The `select` over the result channel, the
caller's context and the wall-clock timer (`sandbox.go:157-164`) is
resolved by an explicit outcome oracle standing for the scheduler. -/

/-- Result of running Go code: a returned value, or a runtime fault
    escaping to the caller. -/
inductive GoResult (α : Type) where
  | ok (val : α)
  | panicked (msg : String)
deriving DecidableEq, Repr

/-- Observable behaviour of the function handed to `Execute`: it either
    returns an error value or raises a runtime fault. -/
inductive FnBehavior where
  | ret (err : Option String)
  | fault (msg : String)
deriving DecidableEq, Repr

/-- Which `select` branch fires in `Execute` (`sandbox.go:157-164`). -/
inductive SelectOutcome where
  | completed
  | cancelled
  | timedOut
deriving DecidableEq, Repr

/-- Invoking the wrapped function: a fault propagates. -/
def runFn : FnBehavior → GoResult (Option String)
  | FnBehavior.ret e => GoResult.ok e
  | FnBehavior.fault m => GoResult.panicked m

/-- The deferred `recover` block (`sandbox.go:143-147`): converts a
    fault into the `plugin panic` error, passes results through. -/
def recoverGuard : GoResult (Option String) → GoResult (Option String)
  | GoResult.panicked m => GoResult.ok (some ("plugin panic: " ++ m))
  | GoResult.ok e => GoResult.ok e

/-- The goroutine body (`sandbox.go:142-154`) under its deferred
    recover: an `applyLimits` failure is sent to the channel, otherwise
    the wrapped function's result is; a fault is recovered. -/
def goroutineOutcome (limErr : Option String) (fn : FnBehavior) :
    GoResult (Option String) :=
  recoverGuard
    (match limErr with
     | some e => GoResult.ok (some e)
     | none => runFn fn)

/-- Sandbox.Execute (`sandbox.go:126-170`): the caller receives the
    channel value, a cancellation error or a CPU-time error depending
    on the `select`; a fault escaping the goroutine (which the deferred
    recover prevents) would take down the host. -/
def executeSandbox (limErr : Option String) (fn : FnBehavior)
    (sel : SelectOutcome) : GoResult (Option String) :=
  match goroutineOutcome limErr fn with
  | GoResult.panicked m => GoResult.panicked m
  | GoResult.ok bodyErr =>
    GoResult.ok
      (match sel with
       | SelectOutcome.completed => bodyErr
       | SelectOutcome.cancelled => some "execution cancelled"
       | SelectOutcome.timedOut => some "CPU time limit exceeded")

/-- Whether a Go result is an ordinary return. -/
def GoResult.isOk : GoResult α → Bool
  | GoResult.ok _ => true
  | GoResult.panicked _ => false

/-! Auxiliary predicates and extraction functions for the theorems. -/

/-- Ordering of `hooks.go` registrations required by the specification:
    strictly higher priority first, ties by registration order (smaller
    id first). -/
def hookOrdered (a b : HookReg) : Prop :=
  a.priority > b.priority ∨ (a.priority = b.priority ∧ a.id < b.id)

/-- Weak descending-priority comparison between registrations. -/
def hookGe (a b : HookReg) : Prop := a.priority ≥ b.priority

/-- Invariant of the `hooks.go` registry: every event type's list is
    sorted by descending priority with ties in registration order, and
    every stored id is below the id counter. -/
def goodHooks (r : HookRegistry) : Prop :=
  ∀ ht : String,
    List.Pairwise hookOrdered (lookupListD r.hooks ht) ∧
    ∀ q ∈ lookupListD r.hooks ht, q.id < r.nextId

/-- The last non-`none` entry of a list of optional errors. -/
def lastSome (l : List (Option String)) : Option String :=
  l.foldl (fun acc o => match o with | some e => some e | none => acc) none

/-- The `AddHook` invocations recorded in an event trace, as
    `(pluginID, hookType, priority)` triples. -/
def addHookCalls (evs : List LifeEvent) : List (String × String × Int) :=
  evs.filterMap (fun e =>
    match e with
    | LifeEvent.addHookCall p ht pr => some (p, ht, pr)
    | _ => none)

/-! Concrete inputs used by the counterexamples and witnesses. -/

/-- Plugin `a` with no dependencies. -/
def metaA : PluginMetadata := ⟨"a", [], [], []⟩

/-- Plugin `b` depending non-optionally on `a`. -/
def metaB : PluginMetadata := ⟨"b", [⟨"a", "1", false⟩], [], []⟩

/-- Plugin `c` with no dependencies. -/
def metaC : PluginMetadata := ⟨"c", [], [], []⟩

/-- Acyclic two-node graph: `b` depends on `a`. -/
def g1 : DependencyGraph := (DependencyGraph.empty.AddPlugin metaA).AddPlugin metaB

/-- Plugin `a` depending non-optionally on `b`. -/
def metaA2 : PluginMetadata := ⟨"a", [⟨"b", "1", false⟩], [], []⟩

/-- Plugin `b` depending non-optionally on `a`. -/
def metaB2 : PluginMetadata := ⟨"b", [⟨"a", "1", false⟩], [], []⟩

/-- Two-node cyclic graph: `a` and `b` depend on each other. -/
def gCyc : DependencyGraph := (DependencyGraph.empty.AddPlugin metaA2).AddPlugin metaB2

/-- Graph exhibiting the broken mutual-inverse invariant: `AddPlugin`
    seeds `b`'s `DependsOn` with `a` but never touches `a`'s
    `Dependents`. -/
def g6 : DependencyGraph := (DependencyGraph.empty.AddPlugin metaB).AddPlugin metaA

/-- An instance whose lifecycle methods all succeed and that declares
    no hooks. -/
def allOk : PluginInstance := ⟨true, true, true, true, []⟩

/-- Registered info for `a` of the cyclic pair, in state `Loaded`. -/
def infoA : PluginInfo := ⟨metaA2, allOk, PluginState.loaded, []⟩

/-- Registered info for `b` of the cyclic pair, in state `Loaded`. -/
def infoB : PluginInfo := ⟨metaB2, allOk, PluginState.loaded, []⟩

/-- Registry holding the mutually dependent pair `a`, `b`. -/
def rCyc : PluginRegistry := ⟨[("a", infoA), ("b", infoB)], [], [], []⟩

/-- Registered info for a hook-carrying test plugin `p`. -/
def infoP : PluginInfo := ⟨⟨"p", [], [], []⟩, allOk, PluginState.loaded, []⟩

/-- Registry holding only plugin `p`, with no hooks yet. -/
def rHooks0 : PluginRegistry := ⟨[("p", infoP)], [], [], []⟩

/-- Handler (registry shape) that always succeeds. -/
def hNone : RHandler := fun _ => none

/-- Handler (registry shape) that always fails. -/
def hErr : RHandler := fun _ => some "boom"

/-- Registry after `AddHook(p, evt, _, 10)` then `AddHook(p, evt, _, 90)`. -/
def rHooks1 : PluginRegistry :=
  ((rHooks0.addHook "p" "evt" hNone 10).1.addHook "p" "evt" hNone 90).1

/-- Registry after registering an erroring handler at priority 5 and a
    succeeding one at priority 7 on the same event. -/
def rHooks2 : PluginRegistry :=
  ((rHooks0.addHook "p" "evt" hErr 5).1.addHook "p" "evt" hNone 7).1

/-- Handler (hooks.go shape) erroring with `e1`, chain not stopped. -/
def hh1 : HHandler := fun d => ⟨some "e1", false, false, d⟩

/-- Handler (hooks.go shape) erroring with `e2`, chain not stopped. -/
def hh2 : HHandler := fun d => ⟨some "e2", false, false, d⟩

/-- Hook registry built from two erroring, non-stopping registrations. -/
def hreg : HookRegistry :=
  HookRegistry.build [⟨"p", "evt", hh1, 10⟩, ⟨"p", "evt", hh2, 90⟩]

/-- Info for a `Started` plugin `a` whose dependents list holds `b`. -/
def infoSA : PluginInfo := ⟨metaA, allOk, PluginState.started, ["b"]⟩

/-- Info for a `Loaded` plugin `a` with no dependents. -/
def infoLA : PluginInfo := ⟨metaA, allOk, PluginState.loaded, []⟩

/-- Registry for the StopPlugin cases: `a` is `Started` with dependent
    `b`, and `b` is `Started`. -/
def rStop1 : PluginRegistry :=
  ⟨[("a", infoSA), ("b", ⟨metaB, allOk, PluginState.started, []⟩)], [], [], []⟩

/-- Registry where `a` is `Started` with dependent `b`, and `b` is
    `Stopped`. -/
def rStop2 : PluginRegistry :=
  ⟨[("a", infoSA), ("b", ⟨metaB, allOk, PluginState.stopped, []⟩)], [], [], []⟩

/-- Registry where `a` is merely `Loaded`. -/
def rStop3 : PluginRegistry :=
  ⟨[("a", infoLA)], [], [], []⟩

/-- Registry where `x` depends non-optionally on the unregistered `y`. -/
def rMiss : PluginRegistry :=
  ⟨[("x", ⟨⟨"x", [⟨"y", "1", false⟩], [], []⟩, allOk, PluginState.loaded, []⟩)],
    [], [], []⟩

/-- Instance declaring two hook handlers on `evt` and one on `evt2`. -/
def instHooky : PluginInstance :=
  ⟨true, true, true, true, [("evt", [hNone, hNone]), ("evt2", [hNone])]⟩

/-- Registry holding the hook-declaring plugin `p` in state `Loaded`. -/
def rHooky : PluginRegistry :=
  ⟨[("p", ⟨⟨"p", [], [], []⟩, instHooky, PluginState.loaded, []⟩)], [], [], []⟩

/-- Well-formed two-node graph (`a` and `c`, no edges) for the
    mutual-inverse witness. -/
def gw : DependencyGraph := (DependencyGraph.empty.AddPlugin metaA).AddPlugin metaC

/-! Theorems. -/

/-- C1: the claim states that `TopologicalSort` places every dependency
    before its dependent.  The code violates it: on the acyclic graph
    where `b` depends non-optionally on `a`, the returned order is
    `["b", "a"]` — the dependency `"a"` comes AFTER its dependent
    `"b"`, because `TopologicalSort` reverses the postorder
    (`dependency.go:169-171`) even though the postorder over
    `DependsOn` already lists dependencies first. -/
theorem topologicalSort_reverses_dependency_order :
    g1.TopologicalSort = (some ["b", "a"], none) ∧
    g1.dependsOnOf "b" = ["a"] := by
  refine ⟨by decide, by decide⟩

/-- C2: the claim states that `DetectCycle` returns a non-empty path
    and an error on every cyclic graph.  The code violates it: the
    loop at `dependency.go:90-97` assigns a SHADOWED local `cycle`, so
    the outer `cycle` stays nil and `DetectCycle` returns `(nil, nil)`
    for every graph — including the concrete two-node cycle `a ↔ b`. -/
theorem detectCycle_always_returns_empty :
    (∀ g : DependencyGraph, g.DetectCycle = ([], none)) ∧
    gCyc.DetectCycle = ([], none) ∧
    gCyc.dependsOnOf "a" = ["b"] ∧ gCyc.dependsOnOf "b" = ["a"] :=
  ⟨fun _ => rfl, rfl, rfl, rfl⟩

/-- C3: the claim states that `StartPlugins` on a registry whose
    non-optional dependency graph is cyclic fails having started zero
    plugins.  The code violates it: with `a` and `b` depending
    non-optionally on each other, `StartPlugins` returns no error,
    invokes `Init` and `Start` on both plugins, and leaves both
    `Started` — the cycle goes undetected because of `DetectCycle`'s
    shadowed-variable bug. -/
theorem startPlugins_succeeds_on_cycle :
    (PluginRegistry.startPlugins rCyc).2.1 = none ∧
    (PluginRegistry.startPlugins rCyc).2.2 =
      [LifeEvent.initCall "a", LifeEvent.startCall "a",
       LifeEvent.initCall "b", LifeEvent.startCall "b"] ∧
    ((PluginRegistry.startPlugins rCyc).1.findPlugin "a").map PluginInfo.state
      = some PluginState.started ∧
    ((PluginRegistry.startPlugins rCyc).1.findPlugin "b").map PluginInfo.state
      = some PluginState.started ∧
    infoA.metadata.dependencies = [⟨"b", "1", false⟩] ∧
    infoB.metadata.dependencies = [⟨"a", "1", false⟩] := by
  refine ⟨by decide, by decide, by decide, by decide, by decide, by decide⟩

/-- C4 counterexample: the claim states that `ExecuteHooks` always
    invokes a priority-90 handler before a priority-10 handler on the
    same event.  `PluginRegistry.AddHook` sorts by ASCENDING priority
    (`registry.go:150-152`), so its `ExecuteHooks` invokes the
    priority-10 registration first: the invocation trace is
    `[(p, 10), (p, 90)]`, which is not descending. -/
theorem registry_executeHooks_ascending_cex :
    (rHooks1.executeHooks "evt" []).2 = [("p", 10), ("p", 90)] ∧
    ¬ List.Pairwise (fun a b : String × Int => a.2 ≥ b.2)
        (rHooks1.executeHooks "evt" []).2 := by
  have h : (rHooks1.executeHooks "evt" []).2 = [("p", 10), ("p", 90)] := rfl
  refine ⟨h, ?_⟩
  rw [h]
  decide

/-- Lookup after store at the same key. -/
theorem getEntry?_setEntry_self (l : List (String × β)) (k : String) (v : β) :
    getEntry? (setEntry l k v) k = some v := by
  induction l with
  | nil => simp [setEntry, getEntry?]
  | cons p rest ih =>
    by_cases hc : p.1 = k
    · simp [setEntry, getEntry?, hc]
    · simp only [setEntry, beq_iff_eq, hc, if_false]
      simpa [getEntry?, List.find?_cons, hc] using ih

/-- Lookup after store at a different key. -/
theorem getEntry?_setEntry_ne (l : List (String × β)) (k k' : String) (v : β)
    (h : k' ≠ k) : getEntry? (setEntry l k v) k' = getEntry? l k' := by
  induction l with
  | nil => simp [setEntry, getEntry?, List.find?_cons, Ne.symm h]
  | cons p rest ih =>
    by_cases hc : p.1 = k
    · have hck' : p.1 ≠ k' := by rw [hc]; exact Ne.symm h
      simp [setEntry, getEntry?, hc, List.find?_cons, Ne.symm h, hck']
    · by_cases hck' : p.1 = k'
      · simp [setEntry, getEntry?, hc, List.find?_cons, hck', h]
      · simp only [setEntry, beq_iff_eq, hc, if_false]
        simpa [getEntry?, List.find?_cons, hck'] using ih

/-- Same-key lookup through `storeList`. -/
theorem lookupListD_storeList_self (l : List (String × List α)) (k : String)
    (v : List α) : lookupListD (storeList l k v) k = v := by
  simp [lookupListD, storeList, getEntry?_setEntry_self]

/-- Different-key lookup through `storeList`. -/
theorem lookupListD_storeList_ne (l : List (String × List α)) (k k' : String)
    (v : List α) (h : k' ≠ k) :
    lookupListD (storeList l k v) k' = lookupListD l k' := by
  simp [lookupListD, storeList, getEntry?_setEntry_ne _ _ _ _ h]

/-- A lookup is defined exactly on the stored keys. -/
theorem getEntry?_isSome_iff (l : List (String × β)) (k : String) :
    (getEntry? l k).isSome ↔ k ∈ l.map Prod.fst := by
  induction l with
  | nil => simp [getEntry?]
  | cons p rest ih =>
    simp only [getEntry?] at ih ⊢
    by_cases hc : p.1 = k
    · simp [List.find?_cons, hc]
    · rw [List.find?_cons_of_neg]
      · simp [Ne.symm hc, ih]
      · simp [hc]

/-- Storing touches exactly the stored key in the key set. -/
theorem mem_map_fst_setEntry (k x : String) (v : β) :
    ∀ l : List (String × β),
      (x ∈ (setEntry l k v).map Prod.fst ↔ x ∈ l.map Prod.fst ∨ x = k) := by
  intro l
  induction l with
  | nil => simp [setEntry]
  | cons p rest ih =>
    by_cases hc : p.1 = k
    · simp [setEntry, hc]
      tauto
    · simp [setEntry, hc, ih]
      tauto

namespace DependencyGraph

/-- Same-key lookup after a node store. -/
theorem findNode_setNode_self (g : DependencyGraph) (k : String) (n : GraphNode) :
    (g.setNode k n).findNode k = some n :=
  getEntry?_setEntry_self g.nodes k n

/-- Different-key lookup after a node store. -/
theorem findNode_setNode_ne (g : DependencyGraph) (k k' : String) (n : GraphNode)
    (h : k' ≠ k) : (g.setNode k n).findNode k' = g.findNode k' :=
  getEntry?_setEntry_ne g.nodes k k' n h

/-- Key membership after a node store. -/
theorem mem_keys_setNode (g : DependencyGraph) (k x : String) (n : GraphNode) :
    x ∈ (g.setNode k n).keys ↔ x ∈ g.keys ∨ x = k :=
  mem_map_fst_setEntry k x n g.nodes

/-- A found node's key is stored. -/
theorem mem_keys_of_findNode (g : DependencyGraph) (k : String) (n : GraphNode)
    (h : g.findNode k = some n) : k ∈ g.keys := by
  have : (g.findNode k).isSome := by simp [h]
  exact (getEntry?_isSome_iff g.nodes k).mp this

/-- A stored key has a node. -/
theorem findNode_isSome_of_mem_keys (g : DependencyGraph) (k : String)
    (h : k ∈ g.keys) : (g.findNode k).isSome :=
  (getEntry?_isSome_iff g.nodes k).mpr h

/-- Outgoing edge list after a node store. -/
theorem dependsOnOf_setNode (g : DependencyGraph) (k : String) (n : GraphNode)
    (x : String) :
    (g.setNode k n).dependsOnOf x =
      if x = k then n.dependsOn else g.dependsOnOf x := by
  by_cases hx : x = k
  · subst hx; simp [dependsOnOf, findNode_setNode_self]
  · simp [dependsOnOf, findNode_setNode_ne g k x n hx, hx]

/-- Incoming edge list after a node store. -/
theorem dependentsOf_setNode (g : DependencyGraph) (k : String) (n : GraphNode)
    (x : String) :
    (g.setNode k n).dependentsOf x =
      if x = k then n.dependents else g.dependentsOf x := by
  by_cases hx : x = k
  · subst hx; simp [dependentsOf, findNode_setNode_self]
  · simp [dependentsOf, findNode_setNode_ne g k x n hx, hx]

/-- The outgoing edges of a found node. -/
theorem dependsOnOf_eq_of_findNode (g : DependencyGraph) (k : String)
    (n : GraphNode) (h : g.findNode k = some n) : g.dependsOnOf k = n.dependsOn := by
  simp [dependsOnOf, h]

/-- The incoming edges of a found node. -/
theorem dependentsOf_eq_of_findNode (g : DependencyGraph) (k : String)
    (n : GraphNode) (h : g.findNode k = some n) : g.dependentsOf k = n.dependents := by
  simp [dependentsOf, h]

/-- Effect of a mutating `AddDependency` call (both nodes present, the
    edge not yet recorded on the `DependsOn` side): `a`'s outgoing list
    gains `b` at the end, `b`'s incoming list gains `a` unless already
    there, the key set is unchanged, and the call reports no error. -/
theorem addDependency_effect (g : DependencyGraph) (a b : String) (na : GraphNode)
    (hfa : g.findNode a = some na) (hfb : (g.findNode b).isSome)
    (hnotin : ¬ b ∈ na.dependsOn) :
    (∀ x, ((g.AddDependency a b).1).dependsOnOf x =
      if x = a then g.dependsOnOf a ++ [b] else g.dependsOnOf x) ∧
    (∀ x, ((g.AddDependency a b).1).dependentsOf x =
      if x = b then
        (if a ∈ g.dependentsOf b then g.dependentsOf b else g.dependentsOf b ++ [a])
      else g.dependentsOf x) ∧
    (∀ x, x ∈ ((g.AddDependency a b).1).keys ↔ x ∈ g.keys) ∧
    (g.AddDependency a b).2 = none := by
  rcases hfbv : g.findNode b with _ | nb
  · rw [hfbv] at hfb; simp at hfb
  have hDa : g.dependsOnOf a = na.dependsOn := dependsOnOf_eq_of_findNode g a na hfa
  have hEa : g.dependentsOf a = na.dependents := dependentsOf_eq_of_findNode g a na hfa
  have hka : a ∈ g.keys := mem_keys_of_findNode g a na hfa
  have hkb : b ∈ g.keys := mem_keys_of_findNode g b nb hfbv
  by_cases hab : b = a
  · -- self edge: the updated node is re-read through the same pointer
    subst hab
    have hnab : nb = na := by rw [hfa] at hfbv; exact (Option.some_inj.mp hfbv).symm
    subst hnab
    have hg1 : (g.setNode b { nb with dependsOn := nb.dependsOn ++ [b] }).findNode b
        = some { nb with dependsOn := nb.dependsOn ++ [b] } :=
      findNode_setNode_self g b _
    by_cases hmem : b ∈ nb.dependents
    · have hres : g.AddDependency b b =
          (g.setNode b { nb with dependsOn := nb.dependsOn ++ [b] }, none) := by
        simp [AddDependency, hfa, hnotin, hg1, hmem]
      rw [hres]
      refine ⟨?_, ?_, ?_, rfl⟩
      · intro x
        rw [dependsOnOf_setNode]
        by_cases hx : x = b <;> simp [hx, hDa]
      · intro x
        rw [dependentsOf_setNode]
        by_cases hx : x = b <;> simp [hx, hEa, hmem]
      · intro x
        rw [mem_keys_setNode]
        constructor
        · rintro (h | h)
          · exact h
          · exact h ▸ hkb
        · exact Or.inl
    · have hres : g.AddDependency b b =
          ((g.setNode b { nb with dependsOn := nb.dependsOn ++ [b] }).setNode b
            { nb with dependsOn := nb.dependsOn ++ [b],
                      dependents := nb.dependents ++ [b] }, none) := by
        simp [AddDependency, hfa, hnotin, hg1, hmem]
      rw [hres]
      refine ⟨?_, ?_, ?_, rfl⟩
      · intro x
        rw [dependsOnOf_setNode, dependsOnOf_setNode]
        by_cases hx : x = b <;> simp [hx, hDa]
      · intro x
        rw [dependentsOf_setNode, dependentsOf_setNode]
        by_cases hx : x = b <;> simp [hx, hEa, hmem]
      · intro x
        rw [mem_keys_setNode, mem_keys_setNode]
        constructor
        · rintro ((h | h) | h)
          · exact h
          · exact h ▸ hkb
          · exact h ▸ hkb
        · exact fun h => Or.inl (Or.inl h)
  · -- distinct endpoints
    have hEb : g.dependentsOf b = nb.dependents := dependentsOf_eq_of_findNode g b nb hfbv
    have hg1 : (g.setNode a { na with dependsOn := na.dependsOn ++ [b] }).findNode b
        = some nb := by
      rw [findNode_setNode_ne g a b _ hab]; exact hfbv
    have hDb : g.dependsOnOf b = nb.dependsOn := dependsOnOf_eq_of_findNode g b nb hfbv
    by_cases hmem : a ∈ nb.dependents
    · have hres : g.AddDependency a b =
          (g.setNode a { na with dependsOn := na.dependsOn ++ [b] }, none) := by
        simp [AddDependency, hfa, hfbv, hnotin, hg1, hmem]
      rw [hres]
      refine ⟨?_, ?_, ?_, rfl⟩
      · intro x
        rw [dependsOnOf_setNode]
        by_cases hx : x = a <;> simp [hx, hDa]
      · intro x
        rw [dependentsOf_setNode]
        by_cases hx : x = a
        · simp [hx, Ne.symm hab, hab, hEa]
        · by_cases hx' : x = b <;> simp [hx, hx', hab, hEb, hmem]
      · intro x
        rw [mem_keys_setNode]
        constructor
        · rintro (h | h)
          · exact h
          · exact h ▸ hka
        · exact Or.inl
    · have hres : g.AddDependency a b =
          ((g.setNode a { na with dependsOn := na.dependsOn ++ [b] }).setNode b
            { nb with dependents := nb.dependents ++ [a] }, none) := by
        simp [AddDependency, hfa, hfbv, hnotin, hg1, hmem]
      rw [hres]
      refine ⟨?_, ?_, ?_, rfl⟩
      · intro x
        rw [dependsOnOf_setNode, dependsOnOf_setNode]
        by_cases hx' : x = b
        · simp [hx', hab, hDb]
        · by_cases hx : x = a <;> simp [hx, hx', hab, Ne.symm hab, hDa]
      · intro x
        rw [dependentsOf_setNode, dependentsOf_setNode]
        by_cases hx' : x = b
        · simp [hx', hab, hEb, hmem]
        · by_cases hx : x = a <;> simp [hx, hx', hab, Ne.symm hab, hEa]
      · intro x
        rw [mem_keys_setNode, mem_keys_setNode]
        constructor
        · rintro ((h | h) | h)
          · exact h
          · exact h ▸ hka
          · exact h ▸ hkb
        · exact fun h => Or.inl (Or.inl h)

end DependencyGraph

/-- Members of a stable descending insertion come from the inserted
    element or the original list. -/
theorem mem_insertDesc {x r : HookReg} :
    ∀ {l : List HookReg}, x ∈ insertDesc r l → x = r ∨ x ∈ l := by
  intro l
  induction l with
  | nil => intro h; simpa [insertDesc] using h
  | cons q qs ih =>
    intro h
    by_cases hc : r.priority > q.priority
    · simp only [insertDesc, if_pos hc, List.mem_cons] at h
      simpa [List.mem_cons] using h
    · simp only [insertDesc, if_neg hc, List.mem_cons] at h
      rcases h with h | h
      · exact Or.inr (by simp [h])
      · rcases ih h with h' | h'
        · exact Or.inl h'
        · exact Or.inr (by simp [h'])

/-- The insertion lands at the end when no list element has strictly
    smaller priority. -/
theorem insertDesc_append (r : HookReg) :
    ∀ l : List HookReg, (∀ y ∈ l, ¬ r.priority > y.priority) →
      insertDesc r l = l ++ [r] := by
  intro l
  induction l with
  | nil => intro _; rfl
  | cons q qs ih =>
    intro h
    have hq := h q (by simp)
    simp only [insertDesc, if_neg hq, List.cons_append, List.cons.injEq, true_and]
    exact ih (fun y hy => h y (by simp [hy]))

/-- A list sorted by weak descending priority is a fixed point of the
    insertion fold. -/
theorem foldl_insertDesc_sorted :
    ∀ (l acc : List HookReg), List.Pairwise hookGe (acc ++ l) →
      List.foldl (fun a x => insertDesc x a) acc l = acc ++ l := by
  intro l
  induction l with
  | nil => intro acc _; simp
  | cons x xs ih =>
    intro acc hp
    have hins : insertDesc x acc = acc ++ [x] := by
      apply insertDesc_append
      intro y hy
      have hge : hookGe y x := by
        rcases List.pairwise_append.mp hp with ⟨_, _, hcross⟩
        exact hcross y hy x (by simp)
      exact not_lt.mpr hge
    rw [List.foldl_cons, hins]
    have := ih (acc ++ [x]) (by simpa using hp)
    simpa using this

/-- (Re-)sorting a sorted list leaves it unchanged. -/
theorem sortDesc_sorted_fixed (l : List HookReg)
    (h : List.Pairwise hookGe l) : sortDesc l = l := by
  have := foldl_insertDesc_sorted l [] (by simpa using h)
  simpa [sortDesc] using this

/-- Sorting after appending one element is insertion into the sorted
    remainder. -/
theorem sortDesc_concat (l : List HookReg) (r : HookReg) :
    sortDesc (l ++ [r]) = insertDesc r (sortDesc l) := by
  simp [sortDesc, List.foldl_append]

/-- The strict order implies the weak one. -/
theorem hookOrdered_ge {a b : HookReg} (h : hookOrdered a b) : hookGe a b := by
  rcases h with h | ⟨h, _⟩
  · exact le_of_lt h
  · exact le_of_eq h.symm

/-- Inserting an element with a maximal id into a sorted list keeps the
    strict order. -/
theorem pairwise_insertDesc :
    ∀ (l : List HookReg) (r : HookReg), List.Pairwise hookOrdered l →
      (∀ y ∈ l, y.id < r.id) → List.Pairwise hookOrdered (insertDesc r l) := by
  intro l
  induction l with
  | nil => intro r _ _; simp [insertDesc]
  | cons q qs ih =>
    intro r hp hid
    rcases List.pairwise_cons.mp hp with ⟨hq, hqs⟩
    by_cases hc : r.priority > q.priority
    · simp only [insertDesc, if_pos hc]
      refine List.pairwise_cons.mpr ⟨?_, hp⟩
      intro z hz
      rcases List.mem_cons.mp hz with hz | hz
      · subst hz; exact Or.inl hc
      · exact Or.inl (lt_of_le_of_lt (hookOrdered_ge (hq z hz)) hc)
    · simp only [insertDesc, if_neg hc]
      refine List.pairwise_cons.mpr
        ⟨?_, ih r hqs (fun y hy => hid y (by simp [hy]))⟩
      intro z hz
      rcases mem_insertDesc hz with hz | hz
      · subst hz
        rcases lt_or_eq_of_le (not_lt.mp hc) with hlt | heq
        · exact Or.inl hlt
        · exact Or.inr ⟨heq.symm, hid q (by simp)⟩
      · exact hq z hz

/-- RegisterHook preserves the sortedness invariant. -/
theorem goodHooks_registerHook (r : HookRegistry) (p ht : String)
    (h : HHandler) (pr : Int) (hg : goodHooks r) :
    goodHooks (r.registerHook p ht h pr) := by
  intro ht'
  rcases hg ht' with ⟨hsort, hids⟩
  by_cases hht : ht' = ht
  · subst hht
    have hfix : sortDesc (lookupListD r.hooks ht') = lookupListD r.hooks ht' :=
      sortDesc_sorted_fixed _ (hsort.imp hookOrdered_ge)
    have hlook :
        lookupListD (HookRegistry.registerHook r p ht' h pr).hooks ht' =
          insertDesc
            { id := r.nextId, pluginID := p, hookType := ht', handler := h,
              priority := pr, enabled := true }
            (lookupListD r.hooks ht') := by
      simp [HookRegistry.registerHook, lookupListD_storeList_self,
        sortDesc_concat, hfix]
    rw [hlook]
    constructor
    · exact pairwise_insertDesc _ _ hsort (fun y hy => hids y hy)
    · intro q hq
      rcases mem_insertDesc hq with hq | hq
      · subst hq; simp [HookRegistry.registerHook]
      · exact Nat.lt_succ_of_lt (hids q hq)
  · have hlook :
        lookupListD (HookRegistry.registerHook r p ht h pr).hooks ht' =
          lookupListD r.hooks ht' := by
      simp [HookRegistry.registerHook, lookupListD_storeList_ne _ _ _ _ hht]
    rw [hlook]
    exact ⟨hsort, fun q hq => Nat.lt_succ_of_lt (hids q hq)⟩

/-- Every registry built by a batch of RegisterHook calls satisfies the
    sortedness invariant. -/
theorem goodHooks_build (reqs : List HookRegistry.Req) :
    goodHooks (HookRegistry.build reqs) := by
  have hgen : ∀ (qs : List HookRegistry.Req) (r : HookRegistry), goodHooks r →
      goodHooks (qs.foldl
        (fun r q => r.registerHook q.pluginID q.hookType q.handler q.priority) r) := by
    intro qs
    induction qs with
    | nil => intro r hr; exact hr
    | cons q qs ih =>
      intro r hr
      exact ih _ (goodHooks_registerHook r q.pluginID q.hookType q.handler q.priority hr)
  refine hgen reqs HookRegistry.empty ?_
  intro ht
  constructor
  · simp [lookupListD, getEntry?, HookRegistry.empty]
  · intro q hq
    simp [lookupListD, getEntry?, HookRegistry.empty] at hq

/-- The invocation trace of the handler loop is a sublist of the
    registration list. -/
theorem execLoop_trace_sublist :
    ∀ (regs : List HookReg) (data : HookData) (last : Option String),
      (HookRegistry.execLoop regs data last).trace.Sublist regs := by
  intro regs
  induction regs with
  | nil => intro data last; simp [HookRegistry.execLoop]
  | cons r rest ih =>
    intro data last
    by_cases he : r.enabled
    · by_cases hs : (r.handler data).stopChain
      · simp only [HookRegistry.execLoop, if_pos he, if_pos hs]
        exact List.cons_sublist_cons.mpr (List.nil_sublist rest)
      · simp only [HookRegistry.execLoop, if_pos he, if_neg hs]
        exact List.cons_sublist_cons.mpr (ih _ _)
    · simp only [HookRegistry.execLoop, if_neg he]
      exact (ih data last).cons r

/-- C4 (amended): in the `hooks.go` pipeline, for every batch of
    `RegisterHook` calls, every event type and every payload, the
    handlers `ExecuteHooks` invokes follow strictly descending
    priority, ties broken by registration order (ids increase with
    insertion).  The original claim fails for the `registry.go`
    pipeline, whose `AddHook` sorts ascending. -/
theorem hookRegistry_executeHooks_descending :
    ∀ (reqs : List HookRegistry.Req) (ht : String) (data : HookData),
      List.Pairwise hookOrdered
        ((HookRegistry.build reqs).executeHooks ht data).trace := by
  intro reqs ht data
  exact List.Pairwise.sublist (execLoop_trace_sublist _ _ _)
    ((goodHooks_build reqs ht).1)

/-- C5 counterexample: the claim states that a handler error without
    `StopChain` lets the chain continue and that the last error is
    returned.  `PluginRegistry.ExecuteHooks` (`registry.go:169-183`)
    instead returns the FIRST error immediately: with an erroring
    handler at priority 5 followed by a succeeding one at priority 7,
    only the first registration is invoked. -/
theorem registry_executeHooks_first_error_cex :
    (rHooks2.executeHooks "evt" []).1 = some "hook from plugin p failed boom" ∧
    (rHooks2.executeHooks "evt" []).2 = [("p", 5)] :=
  ⟨rfl, rfl⟩

/-- When no handler sets `StopChain`, the handler loop invokes every
    enabled registration and folds the wrapped errors left to right. -/
theorem execLoop_no_stop :
    ∀ (regs : List HookReg) (data : HookData) (last : Option String),
      (∀ r ∈ regs, ∀ d : HookData, (r.handler d).stopChain = false) →
      (HookRegistry.execLoop regs data last).trace =
        regs.filter (fun r => r.enabled) ∧
      (HookRegistry.execLoop regs data last).result =
        (HookRegistry.execLoop regs data last).errs.foldl
          (fun acc o => match o with | some e => some e | none => acc) last := by
  intro regs
  induction regs with
  | nil => intro data last _; exact ⟨rfl, rfl⟩
  | cons r rest ih =>
    intro data last hns
    have hr := hns r (by simp)
    by_cases he : r.enabled
    · have hstop : (r.handler data).stopChain = false := hr data
      have htail := ih (if (r.handler data).modified then (r.handler data).data else data)
        (match (r.handler data).err with
         | some e => some ("hook " ++ toString r.id ++ " failed: " ++ e)
         | none => last)
        (fun q hq d => hns q (by simp [hq]) d)
      constructor
      · simp only [HookRegistry.execLoop, he, hstop, Bool.false_eq_true, if_false,
          if_true, List.filter_cons]
        rw [htail.1]
      · simp only [HookRegistry.execLoop, he, hstop, Bool.false_eq_true, if_false,
          if_true]
        rw [htail.2]
        rcases herr : (r.handler data).err with _ | e <;>
          simp [List.foldl_cons, herr]
    · have hih := ih data last (fun q hq d => hns q (by simp [hq]) d)
      constructor
      · simp only [HookRegistry.execLoop, he, Bool.not_eq_true, if_false,
          List.filter_cons]
        simpa [he] using hih.1
      · simp only [HookRegistry.execLoop, he, Bool.not_eq_true, if_false]
        simpa [he] using hih.2

/-- C5 (amended): in the `hooks.go` pipeline, when no handler sets
    `StopChain`, `ExecuteHooks` invokes every enabled handler — an
    error does not abort the chain — and the returned error is the
    LAST wrapped handler error of the run (`lastSome` of the
    per-invocation errors).  The original claim fails for
    `PluginRegistry.ExecuteHooks`, which stops at the first error. -/
theorem hookRegistry_executeHooks_last_error :
    ∀ (reg : HookRegistry) (ht : String) (data : HookData),
      (∀ r ∈ lookupListD reg.hooks ht, ∀ d : HookData,
        (r.handler d).stopChain = false) →
      (reg.executeHooks ht data).trace =
        (lookupListD reg.hooks ht).filter (fun r => r.enabled) ∧
      (reg.executeHooks ht data).result =
        lastSome (reg.executeHooks ht data).errs := by
  intro reg ht data hns
  exact execLoop_no_stop (lookupListD reg.hooks ht) data none hns

/-- Witness for C5: two erroring, non-stopping handlers (priority 10
    registered first, priority 90 second); both run, and the returned
    error is the one of the LAST invoked handler (the priority-10 one,
    id 0). -/
theorem hookRegistry_executeHooks_last_error_witness :
    ((hreg.executeHooks "evt" []).trace =
        (lookupListD hreg.hooks "evt").filter (fun r => r.enabled) ∧
      (hreg.executeHooks "evt" []).result =
        lastSome (hreg.executeHooks "evt" []).errs) ∧
    (hreg.executeHooks "evt" []).result = some "hook 0 failed: e1" ∧
    ((hreg.executeHooks "evt" []).trace.map (fun r => r.id)) = [1, 0] := by
  have hlist : lookupListD hreg.hooks "evt" =
      [⟨1, "p", "evt", hh2, 90, true⟩, ⟨0, "p", "evt", hh1, 10, true⟩] := rfl
  refine ⟨hookRegistry_executeHooks_last_error hreg "evt" [] ?_, by rfl, by rfl⟩
  intro r hr d
  rw [hlist] at hr
  rcases List.mem_cons.mp hr with h | hr
  · subst h; rfl
  rcases List.mem_cons.mp hr with h | hr
  · subst h; rfl
  · simp at hr

/-- C6 counterexample: the claim states that `dependsOn`/`dependents`
    are mutual inverses after every `AddPlugin`/`AddDependency`
    sequence.  After `AddPlugin(b)` (where `b` declares a non-optional
    dependency on `a`) and `AddPlugin(a)`, the edge is one-sided:
    `a ∈ dependsOn(b)` but `b ∉ dependents(a)`, because `AddPlugin`
    seeds `DependsOn` without updating the target's `Dependents`. -/
theorem addPlugin_breaks_mutual_inverse_cex :
    ¬ DependencyGraph.mutualInverse g6 ∧
    "a" ∈ g6.dependsOnOf "b" ∧ ¬ "b" ∈ g6.dependentsOf "a" := by
  refine ⟨by decide, by decide, by decide⟩

/-- C7: behaviour of `StopPlugin` on a `Started` plugin.  If some entry
    of its stored dependents list is itself `Started`, the call returns
    a `blocked` error carrying exactly the started dependents, emits no
    `Stop` call, and leaves the registry (hence the plugin's state)
    unchanged.  If no dependent is started and `Stop` succeeds, the
    plugin is stopped and its state becomes `Stopped`.  If the plugin
    is not `Started`, the call returns no error and does not invoke
    `Stop`. -/
theorem stopPlugin_spec :
    (∀ (r : PluginRegistry) (id : String) (info : PluginInfo),
      r.findPlugin id = some info → info.state = PluginState.started →
      (info.dependents.filter (fun d => r.startedIn d)).length > 0 →
      r.stopPlugin id =
        (r, some (StopErr.blocked (info.dependents.filter (fun d => r.startedIn d))),
          [])) ∧
    (∀ (r : PluginRegistry) (id : String) (info : PluginInfo),
      r.findPlugin id = some info → info.state = PluginState.started →
      info.dependents.filter (fun d => r.startedIn d) = [] →
      info.inst.stopOk = true →
      r.stopPlugin id =
        (r.setPlugin id { info with state := PluginState.stopped }, none,
          [LifeEvent.stopCall id])) ∧
    (∀ (r : PluginRegistry) (id : String) (info : PluginInfo),
      r.findPlugin id = some info → info.state ≠ PluginState.started →
      r.stopPlugin id = (r, none, [])) := by
  refine ⟨?_, ?_, ?_⟩
  · intro r id info hfind hstate hrun
    simp [PluginRegistry.stopPlugin, hfind, hstate, hrun]
  · intro r id info hfind hstate hrun hstop
    simp [PluginRegistry.stopPlugin, hfind, hstate, hrun, hstop]
  · intro r id info hfind hstate
    simp [PluginRegistry.stopPlugin, hfind, hstate]

/-- Witness for C7: the three branches at concrete registries — `a`
    blocked by its started dependent `b`; `a` stopped once `b` is
    `Stopped`; and a no-op on a merely `Loaded` plugin. -/
theorem stopPlugin_spec_witness :
    rStop1.stopPlugin "a" =
      (rStop1,
        some (StopErr.blocked (infoSA.dependents.filter (fun d => rStop1.startedIn d))),
        []) ∧
    rStop2.stopPlugin "a" =
      (rStop2.setPlugin "a" { infoSA with state := PluginState.stopped }, none,
        [LifeEvent.stopCall "a"]) ∧
    rStop3.stopPlugin "a" = (rStop3, none, []) :=
  ⟨stopPlugin_spec.1 rStop1 "a" infoSA rfl rfl (by decide),
   stopPlugin_spec.2.1 rStop2 "a" infoSA rfl rfl (by decide) rfl,
   stopPlugin_spec.2.2 rStop3 "a" infoLA rfl (by decide)⟩

/-- C8: if registered plugin `x` has a non-optional dependency on an
    unregistered id, `ValidateDependencies` reports the pair
    `(x, missing)` among its missing-dependency errors, and
    `StartPlugins` on that registry fails having emitted no lifecycle
    event at all — no `Init` or `Start` is invoked and the registry is
    untouched. -/
theorem missing_dependency_blocks_start :
    ∀ (r : PluginRegistry) (x : String) (info : PluginInfo) (dep : Dependency),
      r.findPlugin x = some info → dep ∈ info.metadata.dependencies →
      dep.optional = false → r.findPlugin dep.pluginID = none →
      (x, dep.pluginID) ∈ r.validateDependencies ∧
      (r.startPlugins).2.1.isSome = true ∧
      (r.startPlugins).2.2 = [] ∧
      (r.startPlugins).1 = r := by
  intro r x info dep hfind hdep hopt hmiss
  have hmem : (x, dep.pluginID) ∈ r.validateDependencies := by
    unfold PluginRegistry.validateDependencies
    rcases hp : r.plugins.find? (fun p => p.1 == x) with _ | p
    · simp [PluginRegistry.findPlugin, getEntry?, hp] at hfind
    · have hpmem : p ∈ r.plugins := List.mem_of_find?_eq_some hp
      have hkey : p.1 = x := by
        have := List.find?_some hp
        simpa using this
      have hval : p.2 = info := by
        simp [PluginRegistry.findPlugin, getEntry?, hp] at hfind
        exact hfind
      refine List.mem_flatMap.mpr ⟨p, hpmem, ?_⟩
      refine List.mem_filterMap.mpr ⟨dep, by rw [hval]; exact hdep, ?_⟩
      simp [hopt, hmiss, hkey]
  have hlen : 0 < r.validateDependencies.length :=
    List.length_pos.mpr (List.ne_nil_of_mem hmem)
  refine ⟨hmem, ?_, ?_, ?_⟩ <;>
    simp [PluginRegistry.startPlugins, hlen]

/-- Witness for C8: the registry where `x` depends non-optionally on
    the unregistered `y`. -/
theorem missing_dependency_blocks_start_witness :
    ("x", "y") ∈ rMiss.validateDependencies ∧
    (rMiss.startPlugins).2.1.isSome = true ∧
    (rMiss.startPlugins).2.2 = [] ∧
    (rMiss.startPlugins).1 = rMiss :=
  missing_dependency_blocks_start rMiss "x" ⟨⟨"x", [⟨"y", "1", false⟩], [], []⟩,
    allOk, PluginState.loaded, []⟩ ⟨"y", "1", false⟩ rfl (by decide) rfl rfl

/-- Extracting the recorded `AddHook` calls from the hook-registration
    events `StartPlugin` emits for a `GetHooks` table. -/
theorem addHookCalls_of_hookEvents (id : String) (pr : Int)
    (l : List (String × List RHandler)) :
    addHookCalls (l.flatMap (fun p =>
        p.2.map (fun _ => LifeEvent.addHookCall id p.1 pr))) =
      l.flatMap (fun p => p.2.map (fun _ => (id, p.1, pr))) := by
  induction l with
  | nil => rfl
  | cons h t ih =>
    simp only [List.flatMap_cons, addHookCalls, List.filterMap_append] at *
    rw [ih, List.filterMap_map]
    congr 1
    exact congrFun (List.filterMap_eq_map (fun _ => (id, h.1, pr))) h.2

/-- C10: when `StartPlugin` succeeds from state `Loaded`, it registers
    every handler of every event type of the instance's `GetHooks()`
    table through `AddHook`, each with the same literal priority
    `100 + 1`, independent of plugin, hook type and handler. -/
theorem startPlugin_hook_priority :
    ∀ (r : PluginRegistry) (id : String) (info : PluginInfo),
      r.findPlugin id = some info → info.state = PluginState.loaded →
      info.inst.initOk = true → info.inst.startOk = true →
      addHookCalls (r.startPlugin id).2.2 =
        info.inst.hooks.flatMap (fun p =>
          p.2.map (fun _ => (id, p.1, (100 + 1 : Int)))) := by
  intro r id info hfind hstate hinit hstart
  simp [PluginRegistry.startPlugin, hfind, hstate, hinit, hstart, addHookCalls,
    List.filterMap_append]
  have := addHookCalls_of_hookEvents id (100 + 1) info.inst.hooks
  simpa [addHookCalls] using this

/-- Witness for C10: the plugin `p` declaring two handlers on `evt` and
    one on `evt2` gets all three registered at priority `101`. -/
theorem startPlugin_hook_priority_witness :
    addHookCalls (rHooky.startPlugin "p").2.2 =
      instHooky.hooks.flatMap (fun p =>
        p.2.map (fun _ => ("p", p.1, (100 + 1 : Int)))) ∧
    addHookCalls (rHooky.startPlugin "p").2.2 =
      [("p", "evt", 101), ("p", "evt", 101), ("p", "evt2", 101)] :=
  ⟨startPlugin_hook_priority rHooky "p"
      ⟨⟨"p", [], [], []⟩, instHooky, PluginState.loaded, []⟩ rfl rfl rfl rfl,
    by decide⟩

namespace DependencyGraph

/-- AddDependency preserves the mutual-inverse invariant and edge
    closure. -/
theorem addDependency_preserves (g : DependencyGraph) (a b : String)
    (hinv : g.mutualInverse) (hcl : g.edgesClosed) :
    ((g.AddDependency a b).1).mutualInverse ∧
    ((g.AddDependency a b).1).edgesClosed := by
  rcases hfa : g.findNode a with _ | na
  · simp only [AddDependency, hfa]
    exact ⟨hinv, hcl⟩
  rcases hfb : g.findNode b with _ | nb
  · simp only [AddDependency, hfa, hfb]
    exact ⟨hinv, hcl⟩
  by_cases hin : b ∈ na.dependsOn
  · have h1 : (g.AddDependency a b).1 = g := by
      simp [AddDependency, hfa, hfb, hin]
    rw [h1]
    exact ⟨hinv, hcl⟩
  · obtain ⟨hd, he, hk, -⟩ :=
      addDependency_effect g a b na hfa (by simp [hfb]) hin
    have hka : a ∈ g.keys := mem_keys_of_findNode g a na hfa
    have hkb : b ∈ g.keys := mem_keys_of_findNode g b nb hfb
    constructor
    · intro x hx y hy
      rw [hk x] at hx
      rw [hk y] at hy
      rw [hd x, he y]
      by_cases hxa : x = a <;> by_cases hyb : y = b
      · rw [if_pos hxa, if_pos hyb]
        by_cases hae : a ∈ g.dependentsOf b <;>
          simp [hae, hxa, hyb, List.mem_append]
      · rw [if_pos hxa, if_neg hyb]
        simp only [List.mem_append, List.mem_singleton, hyb, or_false]
        rw [hxa]
        exact hinv a hka y hy
      · rw [if_neg hxa, if_pos hyb]
        have hbase := hinv x hx b hkb
        rw [hyb]
        by_cases hae : a ∈ g.dependentsOf b
        · rw [if_pos hae]
          exact hbase
        · rw [if_neg hae]
          simp only [List.mem_append, List.mem_singleton]
          constructor
          · intro h
            exact Or.inl (hbase.mp h)
          · rintro (h | h)
            · exact hbase.mpr h
            · exact absurd h hxa
      · rw [if_neg hxa, if_neg hyb]
        exact hinv x hx y hy
    · intro x hx
      rw [hk x] at hx
      refine ⟨?_, ?_⟩
      · intro z hz
        rw [hd x] at hz
        refine (hk z).mpr ?_
        by_cases hxa : x = a
        · rw [if_pos hxa] at hz
          rcases List.mem_append.mp hz with h | h
          · exact (hcl a hka).1 z h
          · have hzb : z = b := by simpa using h
            exact hzb ▸ hkb
        · rw [if_neg hxa] at hz
          exact (hcl x hx).1 z hz
      · intro z hz
        rw [he x] at hz
        refine (hk z).mpr ?_
        by_cases hxb : x = b
        · rw [if_pos hxb] at hz
          by_cases hae : a ∈ g.dependentsOf b
          · rw [if_pos hae] at hz
            exact (hcl b hkb).2 z hz
          · rw [if_neg hae] at hz
            rcases List.mem_append.mp hz with h | h
            · exact (hcl b hkb).2 z h
            · have hza : z = a := by simpa using h
              exact hza ▸ hka
        · rw [if_neg hxb] at hz
          exact (hcl x hx).2 z hz

/-- AddPlugin with fresh id and plain metadata (only optional
    dependencies, no required capabilities) preserves the
    mutual-inverse invariant and edge closure. -/
theorem addPlugin_preserves (g : DependencyGraph) (m : PluginMetadata)
    (hinv : g.mutualInverse) (hcl : g.edgesClosed)
    (hfresh : ¬ m.id ∈ g.keys) (hplain : plainMeta m) :
    (g.AddPlugin m).mutualInverse ∧ (g.AddPlugin m).edgesClosed := by
  obtain ⟨hopt, hreq⟩ := hplain
  have hfil : m.dependencies.filter (fun d => !d.optional) = [] :=
    List.filter_eq_nil_iff.mpr (fun d hd => by simp [hopt d hd])
  have hd : ∀ x, (g.AddPlugin m).dependsOnOf x =
      if x = m.id then [] else g.dependsOnOf x := by
    intro x
    unfold AddPlugin
    rw [dependsOnOf_setNode]
    by_cases hx : x = m.id <;> simp [hx, hfil, hreq]
  have he : ∀ x, (g.AddPlugin m).dependentsOf x =
      if x = m.id then [] else g.dependentsOf x := by
    intro x
    unfold AddPlugin
    rw [dependentsOf_setNode]
  have hk : ∀ x, x ∈ (g.AddPlugin m).keys ↔ x ∈ g.keys ∨ x = m.id := by
    intro x
    unfold AddPlugin
    exact mem_keys_setNode g m.id x _
  constructor
  · intro x hx y hy
    rw [hd x, he y]
    by_cases hxm : x = m.id <;> by_cases hym : y = m.id
    · simp [hxm, hym]
    · have hyk : y ∈ g.keys := ((hk y).mp hy).resolve_right hym
      simp only [if_pos hxm, if_neg hym, List.not_mem_nil, false_iff]
      intro hcon
      exact hfresh (hxm ▸ (hcl y hyk).2 x hcon)
    · have hxk : x ∈ g.keys := ((hk x).mp hx).resolve_right hxm
      simp only [if_neg hxm, if_pos hym, List.not_mem_nil, iff_false]
      intro hcon
      exact hfresh (hym ▸ (hcl x hxk).1 y hcon)
    · have hxk : x ∈ g.keys := ((hk x).mp hx).resolve_right hxm
      have hyk : y ∈ g.keys := ((hk y).mp hy).resolve_right hym
      simp only [if_neg hxm, if_neg hym]
      exact hinv x hxk y hyk
  · intro x hx
    refine ⟨?_, ?_⟩
    · intro z hz
      rw [hd x] at hz
      by_cases hxm : x = m.id
      · rw [if_pos hxm] at hz
        simp at hz
      · rw [if_neg hxm] at hz
        have hxk : x ∈ g.keys := ((hk x).mp hx).resolve_right hxm
        exact (hk z).mpr (Or.inl ((hcl x hxk).1 z hz))
    · intro z hz
      rw [he x] at hz
      by_cases hxm : x = m.id
      · rw [if_pos hxm] at hz
        simp at hz
      · rw [if_neg hxm] at hz
        have hxk : x ∈ g.keys := ((hk x).mp hx).resolve_right hxm
        exact (hk z).mpr (Or.inl ((hcl x hxk).2 z hz))

/-- A second identical `AddDependency` call returns without touching
    the graph. -/
theorem addDependency_idem (g : DependencyGraph) (a b : String) :
    ((g.AddDependency a b).1.AddDependency a b).1 = (g.AddDependency a b).1 := by
  rcases hfa : g.findNode a with _ | na
  · have h1 : (g.AddDependency a b).1 = g := by simp [AddDependency, hfa]
    rw [h1]
    simp [AddDependency, hfa]
  rcases hfb : g.findNode b with _ | nb
  · have h1 : (g.AddDependency a b).1 = g := by simp [AddDependency, hfa, hfb]
    rw [h1]
    simp [AddDependency, hfa, hfb]
  by_cases hin : b ∈ na.dependsOn
  · have h1 : (g.AddDependency a b).1 = g := by simp [AddDependency, hfa, hfb, hin]
    rw [h1]
    simp [AddDependency, hfa, hfb, hin]
  · obtain ⟨hd, he, hk, -⟩ :=
      addDependency_effect g a b na hfa (by simp [hfb]) hin
    set g' := (g.AddDependency a b).1 with hg'
    have hka : a ∈ g'.keys := (hk a).mpr (mem_keys_of_findNode g a na hfa)
    have hkb : b ∈ g'.keys := (hk b).mpr (mem_keys_of_findNode g b nb hfb)
    have hsa := findNode_isSome_of_mem_keys g' a hka
    have hsb := findNode_isSome_of_mem_keys g' b hkb
    rcases hfa' : g'.findNode a with _ | na'
    · rw [hfa'] at hsa; simp at hsa
    rcases hfb' : g'.findNode b with _ | nb'
    · rw [hfb'] at hsb; simp at hsb
    have hbin : b ∈ na'.dependsOn := by
      have hmm : b ∈ g'.dependsOnOf a := by
        rw [hd a, if_pos rfl]
        exact List.mem_append_right _ (by simp)
      rwa [dependsOnOf_eq_of_findNode g' a na' hfa'] at hmm
    simp [AddDependency, hfa', hfb', hbin]

end DependencyGraph

/-- C6 (amended): `AddDependency(from, to)` is idempotent — a repeated
    call leaves the graph unchanged — and the `dependsOn`/`dependents`
    mutual-inverse invariant is preserved by every `AddDependency` call
    and by every `AddPlugin` call whose metadata declares no
    non-optional dependency and no required capability and whose id is
    fresh.  The unrestricted claim is false: `AddPlugin` seeds
    `DependsOn` from metadata without updating the targets'
    `Dependents` (and re-registering an existing id drops its edges),
    and the later `AddDependency` for the same edge returns early
    without repairing the inverse. -/
theorem graph_mutual_inverse_amended :
    (∀ (g : DependencyGraph) (m : PluginMetadata),
      g.mutualInverse → g.edgesClosed → ¬ m.id ∈ g.keys →
      DependencyGraph.plainMeta m →
      (g.AddPlugin m).mutualInverse ∧ (g.AddPlugin m).edgesClosed) ∧
    (∀ (g : DependencyGraph) (a b : String),
      g.mutualInverse → g.edgesClosed →
      ((g.AddDependency a b).1).mutualInverse ∧
      ((g.AddDependency a b).1).edgesClosed) ∧
    (∀ (g : DependencyGraph) (a b : String),
      ((g.AddDependency a b).1.AddDependency a b).1 = (g.AddDependency a b).1) :=
  ⟨fun g m h1 h2 h3 h4 => DependencyGraph.addPlugin_preserves g m h1 h2 h3 h4,
   fun g a b h1 h2 => DependencyGraph.addDependency_preserves g a b h1 h2,
   fun g a b => DependencyGraph.addDependency_idem g a b⟩

/-- Witness for C6: a plain `AddPlugin` on the empty graph, and a
    mutating plus a repeated `AddDependency` on the two-node graph
    `gw`. -/
theorem graph_mutual_inverse_amended_witness :
    ((DependencyGraph.empty.AddPlugin metaA).mutualInverse ∧
      (DependencyGraph.empty.AddPlugin metaA).edgesClosed) ∧
    (((gw.AddDependency "a" "c").1).mutualInverse ∧
      ((gw.AddDependency "a" "c").1).edgesClosed) ∧
    ((gw.AddDependency "a" "c").1.AddDependency "a" "c").1 =
      (gw.AddDependency "a" "c").1 :=
  ⟨graph_mutual_inverse_amended.1 DependencyGraph.empty metaA (by decide)
      (by decide) (by decide) (by decide),
   graph_mutual_inverse_amended.2.1 gw "a" "c" (by decide) (by decide),
   graph_mutual_inverse_amended.2.2 gw "a" "c"⟩

/-- C9: a runtime fault raised by the wrapped function is converted by
    the deferred `recover` into a `plugin panic` error returned to the
    caller, and no `Execute` path ever lets a fault escape to the host
    process. -/
theorem sandbox_execute_contains_faults :
    (∀ m : String,
      executeSandbox none (FnBehavior.fault m) SelectOutcome.completed
        = GoResult.ok (some ("plugin panic: " ++ m))) ∧
    (∀ (limErr : Option String) (fn : FnBehavior) (sel : SelectOutcome),
      (executeSandbox limErr fn sel).isOk = true) := by
  constructor
  · intro m; rfl
  · intro limErr fn sel
    cases limErr <;> cases fn <;> cases sel <;> rfl

end BindXDB
